import Mathlib

/-!
A shallow embedding of the world engine of the 2D tile sandbox game:
seeded noise, procedural chunk generation, the chunk store with its
load/evict policy, tile addressing, axis separated collision
resolution, the survival vitals update and the break/place
interaction layer, together with proofs of the specified properties.

Modelling conventions: JS numbers are exact rationals; the 32 bit
integer pipeline of the stable hash is arithmetic modulo 2 ^ 32
(the JS engine performs the one multiplication in float64, which can
round for large operands; the properties proved here, range,
determinism and grid shape, do not depend on that rounding); the
mutable chunk map is passed explicitly as an association list;
Math.random draws are boolean parameters; fallible JS evaluation
(mixing Number and BigInt) returns Option.
-/

/-- Tile size in pixels (constant TILE). -/
def TILE : ℤ := 32

/-- Tiles per chunk horizontally (constant CHUNK_W). -/
def CHUNK_W : ℤ := 32

/-- Vertical tiles in a chunk (constant WORLD_H). -/
def WORLD_H : ℤ := 80

/-- Chunks kept loaded left and right of the player (constant LOAD_RADIUS
in the stable variant). -/
def LOAD_RADIUS : ℤ := 4

/-- Block reach distance in pixels (constant REACH = 5 * TILE). -/
def REACH : ℚ := 160

/-- World seed (constant SEED). -/
def SEED : ℤ := 1337

/-- Reduction of an integer to its unsigned 32 bit pattern, the effect of
the JS ToUint32 conversion underlying the `| 0` and `>>> 0` pipeline. -/
def toUint32 (z : ℤ) : ℕ := (z % 4294967296).toNat

/-- The integer mixing pipeline of the stable hash2D: seed mix, two
xorshift rounds and one 32 bit multiply, all on 32 bit patterns. -/
def hashMix (x y : ℤ) : ℕ :=
  let n0 : ℕ := toUint32 (x * 374761393 + y * 668265263 + SEED * 1442695041)
  let n1 : ℕ := Nat.xor n0 (n0 >>> 13)
  let n2 : ℕ := (n1 * 1274126177) % 4294967296
  Nat.xor n2 (n2 >>> 16)

/-- hash2D of the stable variant: deterministic value in [0,1) from
integer lattice coordinates. -/
def hash2D (x y : ℤ) : ℚ := (hashMix x y : ℚ) / 4294967296

/-- smoothstep weight t * t * (3 - 2 * t). -/
def smoothstep (t : ℚ) : ℚ := t * t * (3 - 2 * t)

/-- Linear interpolation a + (b - a) * t. -/
def lerp (a b t : ℚ) : ℚ := a + (b - a) * t

/-- 1D value noise: hash at the two neighbouring lattice points,
blended with a smoothstep weight on the fractional part. -/
def noise1D (x : ℚ) : ℚ :=
  let x0 : ℤ := ⌊x⌋
  let x1 : ℤ := x0 + 1
  let t : ℚ := smoothstep (x - x0)
  lerp (hash2D x0 0) (hash2D x1 0) t

/-- 2D value noise: bilinear blend of the hash at the four corners. -/
def noise2D (x y : ℚ) : ℚ :=
  let x0 : ℤ := ⌊x⌋
  let y0 : ℤ := ⌊y⌋
  let x1 : ℤ := x0 + 1
  let y1 : ℤ := y0 + 1
  let tx : ℚ := smoothstep (x - x0)
  let ty : ℚ := smoothstep (y - y0)
  let v00 : ℚ := hash2D x0 y0
  let v10 : ℚ := hash2D x1 y0
  let v01 : ℚ := hash2D x0 y1
  let v11 : ℚ := hash2D x1 y1
  lerp (lerp v00 v10 tx) (lerp v01 v11 tx) ty

/-- JS runtime values relevant to the script.js hash: a Number or a
BigInt.  Arithmetic that mixes the two kinds throws, modelled as
Option.none. -/
inductive JsVal where
  | num : ℚ → JsVal
  | big : ℤ → JsVal

/-- JS addition: mixing a Number with a BigInt throws a TypeError. -/
def jsAdd : JsVal → JsVal → Option JsVal
  | JsVal.num a, JsVal.num b => some (JsVal.num (a + b))
  | JsVal.big a, JsVal.big b => some (JsVal.big (a + b))
  | _, _ => none

/-- JS multiplication: mixing a Number with a BigInt throws a TypeError. -/
def jsMulV : JsVal → JsVal → Option JsVal
  | JsVal.num a, JsVal.num b => some (JsVal.num (a * b))
  | JsVal.big a, JsVal.big b => some (JsVal.big (a * b))
  | _, _ => none

/-- JS BigInt(v) conversion: integral Numbers convert, fractional ones
throw. -/
def jsToBigInt : JsVal → Option ℤ
  | JsVal.big z => some z
  | JsVal.num q => if q.den = 1 then some q.num else none

/-- The hash2D of the script.js variant, evaluated under JS semantics:
`x * 374761393 + y * 668265263 + SEED * 1442695040888963407n` adds
Numbers to a BigInt, then the 64 bit xorshift would run on the
BigInt pattern.  The Number times BigInt product already throws. -/
def hash2Dscript (x y : ℤ) : Option ℚ := do
  let t1 ← jsMulV (JsVal.num x) (JsVal.num 374761393)
  let t2 ← jsMulV (JsVal.num y) (JsVal.num 668265263)
  let t3 ← jsMulV (JsVal.num (SEED : ℚ)) (JsVal.big 1442695040888963407)
  let s1 ← jsAdd t1 t2
  let s2 ← jsAdd s1 t3
  let z ← jsToBigInt s2
  let n0 : ℕ := (z % 18446744073709551616).toNat
  let n1 : ℕ := Nat.xor n0 (n0 >>> 12)
  let n2 : ℕ := Nat.xor n1 ((n1 <<< 25) % 18446744073709551616)
  let n3 : ℕ := Nat.xor n2 (n2 >>> 27)
  pure (((n3 % 4294967296 : ℕ) : ℚ) / 4294967296)

/-- The list of integers from a to b inclusive, the index set of a JS
for loop from a to b. -/
def intRange (a b : ℤ) : List ℤ := (List.range (b + 1 - a).toNat).map (fun i : ℕ => a + (i : ℤ))

/-- A chunk: WORLD_H rows of CHUNK_W block ids, row 0 at the top. -/
abbrev Chunk : Type := List (List ℕ)

/-- Read cell (y, lx) of a chunk grid. -/
def getCell (g : Chunk) (y lx : ℕ) : ℕ := (List.getD g y []).getD lx 0

/-- Write cell (y, lx) of a chunk grid. -/
def setCell (g : Chunk) (y lx : ℕ) (v : ℕ) : Chunk :=
  List.set g y ((List.getD g y []).set lx v)

/-- Modelled from the spec: `clampInt` is called by `generateChunk` but
its definition lies in the truncated tail of the stable source file;
the spec says the ground height is clamped to a valid row range
strictly inside [0, WORLD_H), and the call site passes bounds 10 and
WORLD_H - 2. -/
def clampInt (v lo hi : ℤ) : ℤ := max lo (min hi v)

/-- Tree placement: a trunk of Log rising from baseY that only fills
Air, then a Manhattan distance 3 blob of Leaves around the trunk top
that likewise only fills Air, clipped to the chunk. -/
def placeTree (g0 : Chunk) (lx : ℕ) (baseY : ℤ) (wx : ℤ) : Chunk :=
  let height : ℤ := 4 + ⌊noise1D ((wx : ℚ) * (9 / 10)) * 3⌋
  let g1 : Chunk := (List.range height.toNat).foldl (fun g i =>
    let y : ℤ := baseY - i
    if y < 0 then g
    else if getCell g y.toNat lx = 0 then setCell g y.toNat lx 4 else g) g0
  let topY : ℤ := baseY - (height - 1)
  (intRange (-2) 2).foldl (fun g dy =>
    (intRange (-2) 2).foldl (fun g dx =>
      let y : ℤ := topY + dy
      let x : ℤ := (lx : ℤ) + dx
      if y < 0 ∨ 80 ≤ y ∨ x < 0 ∨ 32 ≤ x then g
      else if |dx| + |dy| ≤ 3 ∧ getCell g y.toNat x.toNat = 0 then
        setCell g y.toNat x.toNat 5
      else g) g) g1

/-- Generation of one column lx of chunk cx: layered noise ground
height, grass/dirt/stone fill, cave carving, coal and iron ore, and
occasional trees on grass. -/
def genColumn (cx : ℤ) (g0 : Chunk) (lx : ℕ) : Chunk :=
  let wx : ℤ := cx * CHUNK_W + lx
  let h1 : ℚ := noise1D ((wx : ℚ) * (6 / 100)) * 8
  let h2 : ℚ := noise1D ((wx : ℚ) * (12 / 1000)) * 18
  let groundY : ℤ := clampInt ⌊(35 : ℚ) + h1 + h2⌋ 10 (WORLD_H - 2)
  let gY : ℕ := groundY.toNat
  let g1 : Chunk := (List.range' gY (80 - gY)).foldl (fun g y =>
    if y = gY then setCell g y lx 1
    else if y < gY + 4 then setCell g y lx 2
    else setCell g y lx 3) g0
  let g2 : Chunk := (List.range' (gY + 4) (80 - (gY + 4))).foldl (fun g (y : ℕ) =>
    if noise2D ((wx : ℚ) * (12 / 100)) ((y : ℚ) * (12 / 100)) > 7 / 10 then
      setCell g y lx 0
    else g) g1
  let g3 : Chunk := (List.range' (gY + 6) (80 - (gY + 6))).foldl (fun g (y : ℕ) =>
    if getCell g y lx ≠ 3 then g
    else
      let n : ℚ := noise2D ((wx : ℚ) * (18 / 100)) ((y : ℚ) * (18 / 100))
      let g' : Chunk := if n > 82 / 100 then setCell g y lx 6 else g
      if 50 < y ∧ n > 88 / 100 then setCell g' y lx 7 else g') g2
  let treeChance : ℚ := noise1D ((wx : ℚ) * (2 / 10))
  if treeChance > 86 / 100 ∧ getCell g3 gY lx = 1 then
    placeTree g3 lx ((gY : ℤ) - 1) wx
  else g3

/-- generateChunk: a fully populated WORLD_H by CHUNK_W grid for chunk
key cx, a pure function of the seed and cx. -/
def generateChunk (cx : ℤ) : Chunk :=
  (List.range 32).foldl (genColumn cx) (List.replicate 80 (List.replicate 32 0))

/-- The chunk map: association list from chunk key to chunk grid,
keys unique, newest entry first. -/
abbrev ChunkMap : Type := List (ℤ × Chunk)

/-- Lookup of a stored chunk by key. -/
def lookupChunk (s : ChunkMap) (k : ℤ) : Option Chunk :=
  (List.find? (fun p => p.1 = k) s).map Prod.snd

/-- getChunk with explicit state: on a miss the chunk is generated and
stored, then returned. -/
def getChunk (s : ChunkMap) (k : ℤ) : Chunk × ChunkMap :=
  match lookupChunk s k with
  | some g => (g, s)
  | none => (generateChunk k, (k, generateChunk k) :: s)

/-- chunks.delete(key): removal of one key from the map. -/
def deleteChunk (s : ChunkMap) (k : ℤ) : ChunkMap :=
  List.filter (fun p => p.1 ≠ k) s

/-- Overwriting of the grid stored under an existing key, the effect of
mutating the chunk object returned by getChunk. -/
def updateChunk (s : ChunkMap) (k : ℤ) (g : Chunk) : ChunkMap :=
  List.map (fun p => if p.1 = k then (k, g) else p) s

/-- Math.floor(a / b) on integers, true floor division. -/
def floorDiv (a b : ℤ) : ℤ := Int.fdiv a b

/-- ((a % b) + b) % b with the truncating JS %, true modulo for
negative operands. -/
def jsMod (a b : ℤ) : ℤ := Int.tmod (Int.tmod a b + b) b

/-- getBlock with explicit state: Air outside the vertical range,
otherwise the cell of the (lazily created) chunk holding column tx. -/
def getBlock (s : ChunkMap) (tx ty : ℤ) : ℕ × ChunkMap :=
  if ty < 0 ∨ WORLD_H ≤ ty then (0, s)
  else
    let cx : ℤ := floorDiv tx CHUNK_W
    let lx : ℤ := jsMod tx CHUNK_W
    let r := getChunk s cx
    (getCell r.1 ty.toNat lx.toNat, r.2)

/-- The value read by getBlock. -/
def getBlockVal (s : ChunkMap) (tx ty : ℤ) : ℕ := (getBlock s tx ty).1

/-- setBlock: no-op outside the vertical range, otherwise writes through
to the stored chunk (created lazily if absent). -/
def setBlock (s : ChunkMap) (tx ty : ℤ) (id : ℕ) : ChunkMap :=
  if ty < 0 ∨ WORLD_H ≤ ty then s
  else
    let cx : ℤ := floorDiv tx CHUNK_W
    let lx : ℤ := jsMod tx CHUNK_W
    let r := getChunk s cx
    updateChunk r.2 cx (setCell r.1 ty.toNat lx.toNat id)

/-- The load and evict pass around a given center chunk key: every key
in [c - LOAD_RADIUS, c + LOAD_RADIUS] is created, then every stored key
farther than LOAD_RADIUS + 2 from the center is deleted. -/
def ensureLoadedAt (s : ChunkMap) (c : ℤ) : ChunkMap :=
  let s1 : ChunkMap :=
    (intRange (c - LOAD_RADIUS) (c + LOAD_RADIUS)).foldl (fun s cx => (getChunk s cx).2) s
  List.filter (fun p => ¬ LOAD_RADIUS + 2 < |p.1 - c|) s1

/-- ensureChunksLoaded: the load and evict pass centered on the chunk
holding the player. -/
def ensureChunksLoaded (s : ChunkMap) (px : ℚ) : ChunkMap :=
  ensureLoadedAt s (floorDiv ⌊px / (TILE : ℚ)⌋ CHUNK_W)

/-- The chunk keys resident in the map. -/
def residentKeys (s : ChunkMap) : Finset ℤ := (List.map Prod.fst s).toFinset

/-- BLOCK_INFO solidity: ids 1..7 are solid, Air and unknown ids are
not. -/
def isSolid (id : ℕ) : Bool := decide (1 ≤ id ∧ id ≤ 7)

/-- An immutable view of world tile contents inside the valid row band,
abstracting the chunk store for the collision claims. -/
abbrev World : Type := ℤ → ℤ → ℕ

/-- Tile read against a world view, with the out of range rows defined
as Air exactly as in getBlock. -/
def getBlockF (w : World) (tx ty : ℤ) : ℕ :=
  if ty < 0 ∨ WORLD_H ≤ ty then 0 else w tx ty

/-- rectHitsWorld: does any solid tile meet the axis aligned box of
width pw and height ph at pixel position (px, py). -/
def rectHits (w : World) (px py pw ph : ℚ) : Bool :=
  let left : ℤ := ⌊px / (TILE : ℚ)⌋
  let right : ℤ := ⌊(px + pw - 1) / (TILE : ℚ)⌋
  let top : ℤ := ⌊py / (TILE : ℚ)⌋
  let bottom : ℤ := ⌊(py + ph - 1) / (TILE : ℚ)⌋
  (intRange top bottom).any fun ty => (intRange left right).any fun tx =>
    isSolid (getBlockF w tx ty)

/-- Math.sign. -/
def jsSign (v : ℚ) : ℚ := if 0 < v then 1 else if v < 0 then -1 else 0

/-- Math.sign(v) || 1 of the stable variant: a zero sign falls back
to 1. -/
def stepOf (v : ℚ) : ℚ := if jsSign v = 0 then 1 else jsSign v

/-- The one pixel retreat loop: while the box at coordinate c hits the
world, move c back by step.  Fuel makes the loop total; none means the
loop did not finish within the given fuel. -/
def retreatLoop (hits : ℚ → Bool) (step : ℚ) : ℕ → ℚ → Option ℚ
  | 0, c => if hits c then none else some c
  | n + 1, c => if hits c then retreatLoop hits step n (c - step) else some c

/-- Player physics state: pixel position, velocity and grounded flag.
The bounding box is the fixed 26 by 30 of the source player object. -/
structure Player where
  x : ℚ
  y : ℚ
  vx : ℚ
  vy : ℚ
  onGround : Bool
deriving DecidableEq

/-- moveAndCollide of the stable variant: horizontal integration with
retreat on overlap, then vertical integration with retreat, grounding
on a downward correction.  Fuel bounds the two retreat loops. -/
def moveAndCollide (w : World) (fuel : ℕ) (p : Player) : Option Player :=
  let x1 : ℚ := p.x + p.vx
  let hx :=
    if rectHits w x1 p.y 26 30 then
      match retreatLoop (fun x => rectHits w x p.y 26 30) (stepOf p.vx) fuel x1 with
      | none => none
      | some x' => some (x', (0 : ℚ))
    else some (x1, p.vx)
  match hx with
  | none => none
  | some (x2, vx2) =>
    let y1 : ℚ := p.y + p.vy
    if rectHits w x2 y1 26 30 then
      let st : ℚ := stepOf p.vy
      match retreatLoop (fun y => rectHits w x2 y 26 30) st fuel y1 with
      | none => none
      | some y' => some ⟨x2, y', vx2, 0, decide (0 < st)⟩
    else some ⟨x2, y1, vx2, p.vy, false⟩

/-- A world that is Air everywhere except a solid one tile thick stone
floor filling row R. -/
def floorWorld (R : ℤ) : World := fun _ ty => if ty = R then 3 else 0

/-- A world of solid stone everywhere inside the valid row band. -/
def allStone : World := fun _ _ => 3

/-- Player survival state: vitals, hunger timer and the position and
velocity touched by respawn.  maxHealth and maxHunger are the fixed 20
of the source player object. -/
structure SState where
  health : ℚ
  hunger : ℚ
  hungerTimer : ℚ
  x : ℚ
  y : ℚ
  vx : ℚ
  vy : ℚ
deriving DecidableEq

/-- respawn: vitals restored to their maxima, position reset to the
fixed spawn point, velocity zeroed. -/
def respawn (st : SState) : SState :=
  { st with health := 20, hunger := 20, x := 2 * 32, y := 10 * 32, vx := 0, vy := 0 }

/-- updateSurvival of the stable variant.  The two Math.random draws
are the boolean parameters regenRoll (random < 0.02) and starveRoll
(random < 0.03). -/
def updateSurvival (dt : ℚ) (regenRoll starveRoll : Bool) (st : SState) : SState :=
  let moving : Bool := decide (|st.vx| > 2 / 10)
  let t1 : ℚ := st.hungerTimer + dt * (if moving then 14 / 10 else 1)
  let st1 : SState :=
    if t1 > 4 then { st with hungerTimer := 0, hunger := max 0 (st.hunger - 1) }
    else { st with hungerTimer := t1 }
  let st2 : SState :=
    if st1.hunger ≥ 16 ∧ st1.health < 20 ∧ regenRoll then
      { st1 with health := min 20 (st1.health + 1) }
    else st1
  let st3 : SState :=
    if st2.hunger = 0 ∧ starveRoll then { st2 with health := max 0 (st2.health - 1) }
    else st2
  if st3.health ≤ 0 then respawn st3 else st3

/-- One hotbar slot: block id and count. -/
structure Slot where
  block : ℕ
  count : ℤ
deriving DecidableEq

/-- addToInventory: the first slot holding the same block id gains the
amount; with no matching slot the hotbar is unchanged. -/
def addToInventory (hb : List Slot) (blockId : ℕ) (amount : ℤ) : List Slot :=
  match hb with
  | [] => []
  | s :: rest =>
    if s.block = blockId then { s with count := s.count + amount } :: rest
    else s :: addToInventory rest blockId amount

/-- removeFromSelected: decrement the selected slot by the amount, a
no-op when the slot is missing or too small. -/
def removeFromSelected (hb : List Slot) (sel : ℕ) (amount : ℤ) : List Slot :=
  match List.get? hb sel with
  | none => hb
  | some s => if s.count < amount then hb else List.set hb sel { s with count := s.count - amount }

/-- Game state touched by the mouse interaction handler. -/
structure Game where
  chunks : ChunkMap
  hotbar : List Slot
  selectedSlot : ℕ
  px : ℚ
  py : ℚ

/-- withinReach: Euclidean distance from the player center to the tile
center at most REACH, stated on squares since Math.hypot compares a
nonnegative root against a nonnegative bound. -/
def withinReach (g : Game) (tx ty : ℤ) : Prop :=
  (g.px + 13 - ((tx : ℚ) * 32 + 16)) ^ 2 + (g.py + 15 - ((ty : ℚ) * 32 + 16)) ^ 2 ≤ REACH ^ 2

instance (g : Game) (tx ty : ℤ) : Decidable (withinReach g tx ty) := by
  unfold withinReach; infer_instance

/-- The self burial guard of the place handler: the world space
rectangle of the target tile meets the player bounding box. -/
def overlapsPlayer (g : Game) (tx ty : ℤ) : Prop :=
  ¬ ((tx : ℚ) * 32 + 32 ≤ g.px ∨ (tx : ℚ) * 32 ≥ g.px + 26 ∨
     (ty : ℚ) * 32 + 32 ≤ g.py ∨ (ty : ℚ) * 32 ≥ g.py + 30)

instance (g : Game) (tx ty : ℤ) : Decidable (overlapsPlayer g tx ty) := by
  unfold overlapsPlayer; infer_instance

/-- The left button branch of the mousedown handler: break the tile and
credit the broken block, a no-op on Air. -/
def breakAt (g : Game) (tx ty : ℤ) : Game :=
  if ¬ withinReach g tx ty then g
  else
    let r := getBlock g.chunks tx ty
    if r.1 ≠ 0 then
      { g with chunks := setBlock r.2 tx ty 0, hotbar := addToInventory g.hotbar r.1 1 }
    else { g with chunks := r.2 }

/-- The right button branch of the mousedown handler: place the selected
block, rejecting when out of reach, when the slot is missing or empty,
when the target is not Air, or when the tile rectangle overlaps the
player. -/
def placeAt (g : Game) (tx ty : ℤ) : Game :=
  if ¬ withinReach g tx ty then g
  else
    match List.get? g.hotbar g.selectedSlot with
    | none => g
    | some slot =>
      if slot.count ≤ 0 then g
      else
        let r := getBlock g.chunks tx ty
        if r.1 ≠ 0 then { g with chunks := r.2 }
        else if overlapsPlayer g tx ty then { g with chunks := r.2 }
        else
          { g with chunks := setBlock r.2 tx ty slot.block,
                   hotbar := removeFromSelected g.hotbar g.selectedSlot 1 }

/-- The 32 bit pattern produced by hashMix really is 32 bits wide. -/
theorem hashMix_lt (x y : ℤ) : hashMix x y < 4294967296 := by
  unfold hashMix
  have h2 : (Nat.xor (toUint32 (x * 374761393 + y * 668265263 + SEED * 1442695041))
      (toUint32 (x * 374761393 + y * 668265263 + SEED * 1442695041) >>> 13) * 1274126177) %
      4294967296 < 4294967296 := Nat.mod_lt _ (by norm_num)
  have e : (4294967296 : ℕ) = 2 ^ 32 := by norm_num
  rw [e] at h2 ⊢
  refine Nat.xor_lt_two_pow h2 (lt_of_le_of_lt ?_ h2)
  rw [Nat.shiftRight_eq_div_pow]
  exact Nat.div_le_self _ _

/-- C3: hash2D of the fixed width variant evaluates without error to a
value in [0, 1) for every pair of integer inputs, while the script.js
variant throws a TypeError (Number mixed with BigInt) on every call,
already at (0, 0). -/
theorem hash2D_range_and_script_error :
    hash2Dscript 0 0 = none ∧ ∀ x y : ℤ, 0 ≤ hash2D x y ∧ hash2D x y < 1 := by
  constructor
  · rfl
  · intro x y
    unfold hash2D
    constructor
    · positivity
    · rw [div_lt_one (by norm_num)]
      exact_mod_cast hashMix_lt x y

/-- A strict lower bound for the truncating JS remainder by 32. -/
theorem tmod32_lower (a : ℤ) : -32 < Int.tmod a 32 := by
  cases a with
  | ofNat m =>
    have h := Int.tmod_nonneg (a := Int.ofNat m) 32 (Int.ofNat_nonneg m)
    omega
  | negSucc m =>
    have e : Int.tmod (Int.negSucc m) 32 = -Int.ofNat ((m + 1) % 32) := rfl
    have h : (m + 1) % 32 < 32 := Nat.mod_lt _ (by norm_num)
    have h2 : Int.ofNat ((m + 1) % 32) < 32 := Int.ofNat_lt.mpr h
    omega

/-- The true modulo computed by the source is nonnegative. -/
theorem jsMod_nonneg (a : ℤ) : 0 ≤ jsMod a 32 := by
  have h := tmod32_lower a
  exact Int.tmod_nonneg 32 (by omega)

/-- The true modulo computed by the source is below CHUNK_W. -/
theorem jsMod_lt (a : ℤ) : jsMod a 32 < 32 :=
  Int.tmod_lt_of_pos _ (by norm_num)

/-- Writing then reading the same list index yields the written value. -/
theorem getD_set_self {α : Type} (l : List α) (n : ℕ) (a d : α) (h : n < l.length) :
    (l.set n a).getD n d = a := by
  rw [List.getD_eq_getElem?_getD, List.getElem?_eq_getElem (by simpa using h)]
  simp

/-- Reading inside the length is reading a member of the list. -/
theorem getD_mem {α : Type} (l : List α) (n : ℕ) (d : α) (h : n < l.length) :
    l.getD n d ∈ l := by
  rw [List.getD_eq_getElem?_getD, List.getElem?_eq_getElem h]
  exact List.getElem_mem h

/-- The WORLD_H by CHUNK_W shape of a chunk grid. -/
def ChunkShape (g : Chunk) : Prop :=
  List.length g = 80 ∧ ∀ r ∈ g, List.length r = 32

/-- A cell write preserves the grid shape. -/
theorem chunkShape_setCell (g : Chunk) (y lx v : ℕ) (h : ChunkShape g) :
    ChunkShape (setCell g y lx v) := by
  obtain ⟨hlen, hrow⟩ := h
  by_cases hy : y < List.length g
  · constructor
    · simpa [setCell] using hlen
    · intro r hr
      rcases List.mem_or_eq_of_mem_set hr with h1 | h1
      · exact hrow r h1
      · subst h1
        rw [List.length_set]
        exact hrow _ (getD_mem g y [] hy)
  · unfold setCell
    rw [List.set_eq_of_length_le (Nat.le_of_not_lt hy)]
    exact ⟨hlen, hrow⟩

/-- A fold whose step preserves a predicate preserves it. -/
theorem foldl_preserves {α β : Type} (P : α → Prop) (f : α → β → α)
    (hf : ∀ a b, P a → P (f a b)) :
    ∀ (l : List β) (a : α), P a → P (List.foldl f a l) := by
  intro l
  induction l with
  | nil => intro a ha; exact ha
  | cons b l ih => intro a ha; exact ih _ (hf a b ha)

/-- placeTree preserves the grid shape. -/
theorem placeTree_shape (g : Chunk) (lx : ℕ) (baseY wx : ℤ) (h : ChunkShape g) :
    ChunkShape (placeTree g lx baseY wx) := by
  unfold placeTree
  apply foldl_preserves ChunkShape
  · intro a dy ha
    apply foldl_preserves ChunkShape
    · intro a' dx ha'
      dsimp only
      split
      · exact ha'
      · split
        · exact chunkShape_setCell _ _ _ _ ha'
        · exact ha'
    · exact ha
  · apply foldl_preserves ChunkShape
    · intro a i ha
      dsimp only
      split
      · exact ha
      · split
        · exact chunkShape_setCell _ _ _ _ ha
        · exact ha
    · exact h

/-- genColumn preserves the grid shape. -/
theorem genColumn_shape (cx : ℤ) (g : Chunk) (lx : ℕ) (h : ChunkShape g) :
    ChunkShape (genColumn cx g lx) := by
  unfold genColumn
  dsimp only
  split
  · apply placeTree_shape
    apply foldl_preserves ChunkShape _ ?s3
    apply foldl_preserves ChunkShape _ ?s2
    apply foldl_preserves ChunkShape _ ?s1
    exact h
    case s1 =>
      intro a y ha
      split
      · exact chunkShape_setCell _ _ _ _ ha
      · split
        · exact chunkShape_setCell _ _ _ _ ha
        · exact chunkShape_setCell _ _ _ _ ha
    case s2 =>
      intro a y ha
      split
      · exact chunkShape_setCell _ _ _ _ ha
      · exact ha
    case s3 =>
      intro a y ha
      split
      · exact ha
      · split
        · apply chunkShape_setCell
          split
          · exact chunkShape_setCell _ _ _ _ ha
          · exact ha
        · split
          · exact chunkShape_setCell _ _ _ _ ha
          · exact ha
  · apply foldl_preserves ChunkShape _ ?t3
    apply foldl_preserves ChunkShape _ ?t2
    apply foldl_preserves ChunkShape _ ?t1
    exact h
    case t1 =>
      intro a y ha
      split
      · exact chunkShape_setCell _ _ _ _ ha
      · split
        · exact chunkShape_setCell _ _ _ _ ha
        · exact chunkShape_setCell _ _ _ _ ha
    case t2 =>
      intro a y ha
      split
      · exact chunkShape_setCell _ _ _ _ ha
      · exact ha
    case t3 =>
      intro a y ha
      split
      · exact ha
      · split
        · apply chunkShape_setCell
          split
          · exact chunkShape_setCell _ _ _ _ ha
          · exact ha
        · split
          · exact chunkShape_setCell _ _ _ _ ha
          · exact ha

/-- Every generated chunk is a WORLD_H by CHUNK_W grid. -/
theorem generateChunk_shape (cx : ℤ) : ChunkShape (generateChunk cx) := by
  unfold generateChunk
  apply foldl_preserves ChunkShape
  · intro a lx ha
    exact genColumn_shape cx a lx ha
  · refine ⟨by simp, ?_⟩
    intro r hr
    rw [List.eq_of_mem_replicate hr]
    simp

/-- Lookup distributes over cons. -/
theorem lookupChunk_cons (p : ℤ × Chunk) (s : ChunkMap) (k : ℤ) :
    lookupChunk (p :: s) k = if p.1 = k then some p.2 else lookupChunk s k := by
  by_cases h : p.1 = k
  · simp [lookupChunk, List.find?_cons_of_pos, h]
  · simp [lookupChunk, List.find?_cons_of_neg, h]

/-- A successful lookup returns a stored entry with the looked up key. -/
theorem lookupChunk_some (s : ChunkMap) (k : ℤ) (g : Chunk)
    (h : lookupChunk s k = some g) : (k, g) ∈ s := by
  induction s with
  | nil => simp [lookupChunk] at h
  | cons p rest ih =>
    rw [lookupChunk_cons] at h
    by_cases hp : p.1 = k
    · rw [if_pos hp] at h
      obtain ⟨p1, p2⟩ := p
      obtain rfl : p1 = k := hp
      obtain rfl : p2 = g := by injection h
      exact List.mem_cons_self _ _
    · rw [if_neg hp] at h
      exact List.mem_cons_of_mem _ (ih h)

/-- The state returned by getChunk always holds the requested key. -/
theorem getChunk_mem (s : ChunkMap) (k : ℤ) :
    ∃ p ∈ (getChunk s k).2, p.1 = k := by
  unfold getChunk
  cases h : lookupChunk s k with
  | none => exact ⟨(k, generateChunk k), List.mem_cons_self _ _, rfl⟩
  | some g => exact ⟨(k, g), lookupChunk_some s k g h, rfl⟩

/-- Well formedness of the chunk map: every stored grid has the
WORLD_H by CHUNK_W shape. -/
def MapWF (s : ChunkMap) : Prop := ∀ p ∈ s, ChunkShape p.2

/-- The chunk returned by getChunk has the standard shape whenever the
map is well formed. -/
theorem getChunk_fst_shape (s : ChunkMap) (k : ℤ) (hwf : MapWF s) :
    ChunkShape (getChunk s k).1 := by
  unfold getChunk
  cases h : lookupChunk s k with
  | none => exact generateChunk_shape k
  | some g => exact hwf _ (lookupChunk_some s k g h)

/-- After overwriting an existing key, lookup returns the new grid. -/
theorem lookupChunk_update_self (s : ChunkMap) (k : ℤ) (g : Chunk)
    (h : ∃ p ∈ s, p.1 = k) : lookupChunk (updateChunk s k g) k = some g := by
  induction s with
  | nil => simp at h
  | cons p rest ih =>
    unfold updateChunk
    rw [List.map_cons]
    by_cases hp : p.1 = k
    · rw [if_pos hp, lookupChunk_cons, if_pos rfl]
    · rw [if_neg hp, lookupChunk_cons, if_neg hp]
      apply ih
      rcases h with ⟨q, hq, hqk⟩
      rcases List.mem_cons.mp hq with h1 | h1
      · exact absurd (h1 ▸ hqk) hp
      · exact ⟨q, h1, hqk⟩

/-- Writing then reading the same cell of a well shaped grid returns
the written value. -/
theorem getCell_setCell_self (g : Chunk) (y lx v : ℕ)
    (hy : y < List.length g) (hlx : lx < List.length (List.getD g y [])) :
    getCell (setCell g y lx v) y lx = v := by
  unfold getCell setCell
  rw [getD_set_self _ _ _ _ hy, getD_set_self _ _ _ _ hlx]

/-- C4: for every integer tile column (negative included), every valid
row and every block id, setBlock followed by getBlock at the same tile
returns exactly the written id, over any well formed chunk map. -/
theorem setBlock_getBlock_roundtrip (s : ChunkMap) (tx ty : ℤ) (id : ℕ)
    (hwf : MapWF s) (h0 : 0 ≤ ty) (h1 : ty < WORLD_H) :
    getBlockVal (setBlock s tx ty id) tx ty = id := by
  have hrange : ¬ (ty < 0 ∨ WORLD_H ≤ ty) := by
    unfold WORLD_H at h1 ⊢
    omega
  unfold getBlockVal getBlock setBlock
  rw [if_neg hrange, if_neg hrange]
  dsimp only
  have hmem := getChunk_mem s (floorDiv tx CHUNK_W)
  set g0 : Chunk := (getChunk s (floorDiv tx CHUNK_W)).1 with hg0
  set s1 : ChunkMap := (getChunk s (floorDiv tx CHUNK_W)).2 with hs1
  have hshape : ChunkShape g0 := getChunk_fst_shape s _ hwf
  have hlook := lookupChunk_update_self s1 (floorDiv tx CHUNK_W)
    (setCell g0 ty.toNat (jsMod tx CHUNK_W).toNat id) hmem
  unfold getChunk
  rw [hlook]
  dsimp only
  apply getCell_setCell_self
  · rw [hshape.1]
    unfold WORLD_H at h1
    omega
  · have hrow : List.getD g0 ty.toNat [] ∈ g0 := by
      apply getD_mem
      rw [hshape.1]
      unfold WORLD_H at h1
      omega
    rw [hshape.2 _ hrow]
    have ha := jsMod_nonneg tx
    have hb := jsMod_lt tx
    unfold CHUNK_W
    omega

/-- C4 witness: the round trip at the concrete tile (-1, 5) with block
id 3 on the empty chunk map. -/
theorem setBlock_getBlock_roundtrip_witness :
    MapWF [] ∧ (0 : ℤ) ≤ 5 ∧ (5 : ℤ) < WORLD_H ∧
    getBlockVal (setBlock [] (-1) 5 3) (-1) 5 = 3 := by
  refine ⟨?_, by norm_num, by unfold WORLD_H; norm_num, ?_⟩
  · intro p hp
    simp at hp
  · exact setBlock_getBlock_roundtrip [] (-1) 5 3 (fun p hp => by simp at hp)
      (by norm_num) (by unfold WORLD_H; norm_num)

/-- C6: outside the vertical range getBlock returns Air and setBlock
returns the chunk map unchanged; both are total. -/
theorem outOfRange_getBlock_setBlock (s : ChunkMap) (tx ty : ℤ) (id : ℕ)
    (h : ty < 0 ∨ WORLD_H ≤ ty) :
    getBlockVal s tx ty = 0 ∧ setBlock s tx ty id = s := by
  unfold getBlockVal getBlock setBlock
  rw [if_pos h, if_pos h]
  exact ⟨rfl, rfl⟩

/-- C6 witness: the out of range access at ty = -3 on the empty map. -/
theorem outOfRange_getBlock_setBlock_witness :
    ((-3 : ℤ) < 0 ∨ WORLD_H ≤ -3) ∧
    getBlockVal [] 7 (-3) = 0 ∧ setBlock [] 7 (-3) 3 = [] := by
  have h : ((-3 : ℤ) < 0 ∨ WORLD_H ≤ -3) := Or.inl (by norm_num)
  exact ⟨h, outOfRange_getBlock_setBlock [] 7 (-3) 3 h⟩

/-- Deleting a key makes its lookup miss. -/
theorem lookupChunk_delete_self (s : ChunkMap) (k : ℤ) :
    lookupChunk (deleteChunk s k) k = none := by
  induction s with
  | nil => rfl
  | cons p rest ih =>
    unfold deleteChunk at ih ⊢
    rw [List.filter_cons]
    by_cases hp : p.1 = k
    · simp only [hp]
      simpa using ih
    · have : (decide (p.1 ≠ k)) = true := by simpa using hp
      rw [this]
      simp only [if_true]
      rw [lookupChunk_cons, if_neg hp]
      exact ih

/-- C2: a chunk requested on a miss, then evicted, then requested
again yields the identical grid (the pure regeneration of
generateChunk), and that grid is a full WORLD_H by CHUNK_W matrix. -/
theorem generateChunk_regen (s : ChunkMap) (k : ℤ)
    (hmiss : lookupChunk s k = none) :
    (getChunk (deleteChunk (getChunk s k).2 k) k).1 = (getChunk s k).1 ∧
    List.length (getChunk s k).1 = 80 ∧
    ∀ r ∈ (getChunk s k).1, List.length r = 32 := by
  have h1 : (getChunk s k).1 = generateChunk k := by
    unfold getChunk
    rw [hmiss]
  have h2 : (getChunk (deleteChunk (getChunk s k).2 k) k).1 = generateChunk k := by
    conv_lhs => rw [getChunk]
    rw [lookupChunk_delete_self]
  refine ⟨h2.trans h1.symm, ?_, ?_⟩
  · rw [h1]
    exact (generateChunk_shape k).1
  · rw [h1]
    exact (generateChunk_shape k).2

/-- C2 witness: the first request of chunk 0 on the empty map is a
miss, and eviction followed by regeneration reproduces its grid. -/
theorem generateChunk_regen_witness :
    lookupChunk [] 0 = none ∧
    (getChunk (deleteChunk (getChunk [] 0).2 0) 0).1 = (getChunk [] 0).1 := by
  exact ⟨rfl, (generateChunk_regen [] 0 rfl).1⟩

/-- Every key resident after the load and evict pass lies within
LOAD_RADIUS + 2 of the center. -/
theorem residentKeys_ensureLoadedAt_subset (s : ChunkMap) (c : ℤ) :
    residentKeys (ensureLoadedAt s c) ⊆ Finset.Icc (c - 6) (c + 6) := by
  intro k hk
  unfold residentKeys ensureLoadedAt at hk
  rw [List.mem_toFinset, List.mem_map] at hk
  obtain ⟨p, hp, rfl⟩ := hk
  rw [List.mem_filter] at hp
  have h2 : ¬ LOAD_RADIUS + 2 < |p.1 - c| := by simpa using hp.2
  unfold LOAD_RADIUS at h2
  rw [Finset.mem_Icc]
  rw [not_lt, abs_le] at h2
  omega

/-- C1: immediately after any load and evict pass, from any prior
state and any player position, the number of resident chunks is at
most 2 * (LOAD_RADIUS + 2) + 1. -/
theorem ensureChunksLoaded_bounded (s : ChunkMap) (px : ℚ) :
    ((residentKeys (ensureChunksLoaded s px)).card : ℤ) ≤ 2 * (LOAD_RADIUS + 2) + 1 := by
  unfold ensureChunksLoaded
  set c : ℤ := floorDiv ⌊px / (TILE : ℚ)⌋ CHUNK_W
  have hsub := residentKeys_ensureLoadedAt_subset s c
  have hcard := Finset.card_le_card hsub
  have hicc : (Finset.Icc (c - 6) (c + 6)).card = 13 := by
    rw [Int.card_Icc]
    omega
  unfold LOAD_RADIUS
  rw [hicc] at hcard
  omega

/-- The chunk map of the C5 scenario: chunk keys -5 through 5 are
requested on an empty map, then the load and evict pass runs with
center chunk 0. -/
def chunksAfterScenario : ChunkMap :=
  ensureLoadedAt ((intRange (-5) 5).foldl (fun s k => (getChunk s k).2) []) 0

/-- C5 counterexample: after the scenario the resident keys are not
the claimed -4 through 4; key 5 is still resident because the evict
test only removes keys farther than LOAD_RADIUS + 2 = 6 from the
center. -/
theorem chunksAfterScenario_ne_claimed :
    residentKeys chunksAfterScenario ≠ Finset.Icc (-4) 4 ∧
    (5 : ℤ) ∈ residentKeys chunksAfterScenario := by
  constructor
  · decide
  · decide

/-- C5 amended: after the scenario exactly the chunk keys -5 through 5
are resident. -/
theorem chunksAfterScenario_resident :
    residentKeys chunksAfterScenario = Finset.Icc (-5) 5 := by
  decide

/-- Membership in the loop index range. -/
theorem mem_intRange {a b t : ℤ} : t ∈ intRange a b ↔ a ≤ t ∧ t ≤ b := by
  unfold intRange
  rw [List.mem_map]
  constructor
  · rintro ⟨i, hi, rfl⟩
    rw [List.mem_range] at hi
    omega
  · rintro ⟨h1, h2⟩
    refine ⟨(t - a).toNat, ?_, ?_⟩
    · rw [List.mem_range]
      omega
    · omega

/-- With step 1, the retreat loop stops at the first non hitting
position, provided the fuel reaches it. -/
theorem retreatLoop_eq_of_min (hits : ℚ → Bool) :
    ∀ (fuel k : ℕ) (y : ℚ), k ≤ fuel → hits (y - k) = false →
      (∀ j < k, hits (y - j) = true) →
      retreatLoop hits 1 fuel y = some (y - k) := by
  intro fuel
  induction fuel with
  | zero =>
    intro k y hk hf _
    interval_cases k
    simp only [Nat.cast_zero, sub_zero] at hf
    unfold retreatLoop
    rw [hf]
    simp
  | succ n ih =>
    intro k y hk hf hmin
    by_cases hy : hits y = true
    · have hk0 : k ≠ 0 := by
        intro h0
        rw [h0] at hf
        simp only [Nat.cast_zero, sub_zero] at hf
        rw [hy] at hf
        cases hf
      obtain ⟨k', rfl⟩ : ∃ k', k = k' + 1 := ⟨k - 1, by omega⟩
      show retreatLoop hits 1 (n + 1) y = _
      unfold retreatLoop
      rw [hy]
      simp only [if_true]
      have e : y - 1 - (k' : ℚ) = y - ((k' + 1 : ℕ) : ℚ) := by push_cast; ring
      rw [ih k' (y - 1) (by omega) (by rw [e]; exact hf) ?_, e]
      intro j hj
      have := hmin (j + 1) (by omega)
      have ej : y - 1 - (j : ℚ) = y - ((j + 1 : ℕ) : ℚ) := by push_cast; ring
      rw [ej]
      exact this
    · have hk0 : k = 0 := by
        by_contra h0
        have := hmin 0 (by omega)
        simp only [Nat.cast_zero, sub_zero] at this
        exact hy this
    
      subst hk0
      unfold retreatLoop
      rw [Bool.not_eq_true] at hy
      rw [hy]
      simp

/-- A box entirely above the world (bottom pixel row negative) hits
nothing: rows below zero read as Air. -/
theorem rectHits_false_of_above (w : World) (x y pw ph : ℚ)
    (h : y + ph - 1 < 0) : rectHits w x y pw ph = false := by
  unfold rectHits
  rw [List.any_eq_false]
  intro ty hty
  rw [mem_intRange] at hty
  have hneg : ty < 0 := by
    have hq : (y + ph - 1) / (TILE : ℚ) < 0 := by
      apply div_neg_of_neg_of_pos h
      norm_num [TILE]
    have hfl : ⌊(y + ph - 1) / (TILE : ℚ)⌋ < 0 := by
      rw [Int.floor_lt]
      exact_mod_cast hq
    omega
  simp only [Bool.not_eq_true, List.any_eq_false]
  intro tx _
  unfold getBlockF
  rw [if_pos (Or.inl hneg)]
  rfl

/-- The column range of the player box is never empty. -/
theorem colRange_nonempty (x : ℚ) :
    ⌊x / (TILE : ℚ)⌋ ≤ ⌊(x + 26 - 1) / (TILE : ℚ)⌋ := by
  apply Int.floor_le_floor
  have hT : (0 : ℚ) < (TILE : ℚ) := by norm_num [TILE]
  rw [div_le_div_iff_of_pos_right hT]
  linarith

/-- Characterization of a player box hit against the one tile floor
world: the row band of the box must contain row R. -/
theorem rectHits_floorWorld_iff (R : ℤ) (hR0 : 0 ≤ R) (hR1 : R < 80) (x y : ℚ) :
    rectHits (floorWorld R) x y 26 30 = true ↔
      (⌊y / (TILE : ℚ)⌋ ≤ R ∧ R ≤ ⌊(y + 30 - 1) / (TILE : ℚ)⌋) := by
  unfold rectHits
  rw [List.any_eq_true]
  constructor
  · rintro ⟨ty, hty, hinner⟩
    rw [mem_intRange] at hty
    rw [List.any_eq_true] at hinner
    obtain ⟨tx, _, hsolid⟩ := hinner
    unfold getBlockF floorWorld at hsolid
    by_cases hrange : ty < 0 ∨ WORLD_H ≤ ty
    · rw [if_pos hrange] at hsolid
      cases hsolid
    · rw [if_neg hrange] at hsolid
      by_cases hR : ty = R
      · subst hR
        exact ⟨hty.1, hty.2⟩
      · rw [if_neg hR] at hsolid
        cases hsolid
  · rintro ⟨h1, h2⟩
    refine ⟨R, mem_intRange.mpr ⟨h1, h2⟩, ?_⟩
    rw [List.any_eq_true]
    refine ⟨⌊x / (TILE : ℚ)⌋, mem_intRange.mpr ⟨le_refl _, colRange_nonempty x⟩, ?_⟩
    unfold getBlockF floorWorld
    rw [if_neg ?_, if_pos rfl]
    · rfl
    · unfold WORLD_H
      omega

/-- The all stone world hits the player box whenever the box sits at
pixel height 64 (rows 2 within the valid band). -/
theorem rectHits_allStone (x : ℚ) : rectHits allStone x 64 26 30 = true := by
  unfold rectHits
  rw [List.any_eq_true]
  have hfl : ⌊(64 : ℚ) / (TILE : ℚ)⌋ = 2 := by norm_num [TILE]
  have hfl2 : ⌊((64 : ℚ) + 30 - 1) / (TILE : ℚ)⌋ = 2 := by norm_num [TILE]
  refine ⟨2, mem_intRange.mpr ⟨by rw [hfl], by rw [hfl2]⟩, ?_⟩
  rw [List.any_eq_true]
  refine ⟨⌊x / (TILE : ℚ)⌋, mem_intRange.mpr ⟨le_refl _, colRange_nonempty x⟩, ?_⟩
  unfold getBlockF allStone
  rw [if_neg ?_]
  · rfl
  · unfold WORLD_H
    omega

/-- A retreat loop with step 0 starting on a hit never terminates: the
position never changes. -/
theorem retreatLoop_zero_step (hits : ℚ → Bool) (c : ℚ) (h : hits c = true) :
    ∀ n : ℕ, retreatLoop hits 0 n c = none := by
  intro n
  induction n with
  | zero =>
    unfold retreatLoop
    rw [h]
    rfl
  | succ m ih =>
    unfold retreatLoop
    rw [h]
    simpa using ih

/-- C7: in the stable variant a zero velocity uses the fallback step
Math.sign(v) || 1 = 1, and the step 1 retreat loop always terminates
(retreating upward eventually clears the world, whose negative rows
are Air); in the script.js variant the step is Math.sign(0) = 0 and
the retreat loop on a hit never terminates, e.g. pinned in stone at
pixel height 64. -/
theorem zero_velocity_step_and_termination :
    stepOf 0 = 1 ∧ jsSign 0 = 0 ∧
    (∀ n : ℕ, retreatLoop (fun x => rectHits allStone x 64 26 30) (jsSign 0) n 0 = none) ∧
    (∀ (w : World) (x y : ℚ), ∃ n : ℕ,
      (retreatLoop (fun c => rectHits w x c 26 30) (stepOf 0) n y).isSome = true) := by
  have hsign : jsSign 0 = 0 := by unfold jsSign; norm_num
  have hstep : stepOf 0 = 1 := by unfold stepOf; rw [hsign]; norm_num
  refine ⟨hstep, hsign, ?_, ?_⟩
  · intro n
    rw [hsign]
    exact retreatLoop_zero_step _ 0 (rectHits_allStone 0) n
  · intro w x y
    rw [hstep]
    have hP : ∃ k : ℕ, rectHits w x (y - k) 26 30 = false := by
      refine ⟨(⌈y⌉ + 30).toNat, ?_⟩
      apply rectHits_false_of_above
      have h1 : y ≤ (⌈y⌉ : ℚ) := Int.le_ceil y
      have h2 : ((⌈y⌉ + 30 : ℤ) : ℚ) ≤ ((((⌈y⌉ + 30).toNat : ℤ)) : ℚ) := by
        exact_mod_cast Int.self_le_toNat _
      push_cast at h2
      linarith
    refine ⟨Nat.find hP, ?_⟩
    rw [retreatLoop_eq_of_min _ (Nat.find hP) (Nat.find hP) y (le_refl _) (Nat.find_spec hP) ?_]
    · rfl
    · intro j hj
      have := Nat.find_min hP hj
      rwa [Bool.not_eq_false] at this

/-- The result of moveAndCollide when the horizontal pass is clean and
the vertical pass retreats from the first overlap to the first free
position: the player lands k pixels back up, vertical velocity zeroed,
grounded. -/
theorem moveAndCollide_vert (w : World) (fuel : ℕ) (p : Player) (k : ℕ)
    (hvx : p.vx = 0) (hvy : 0 < p.vy)
    (hstart : rectHits w p.x p.y 26 30 = false)
    (hoverlap : rectHits w p.x (p.y + p.vy) 26 30 = true)
    (hk : k ≤ fuel)
    (hkf : rectHits w p.x (p.y + p.vy - k) 26 30 = false)
    (hmin : ∀ j < k, rectHits w p.x (p.y + p.vy - j) 26 30 = true) :
    moveAndCollide w fuel p = some ⟨p.x, p.y + p.vy - k, 0, 0, true⟩ := by
  have hstep : stepOf p.vy = 1 := by
    unfold stepOf jsSign
    rw [if_pos hvy]
    norm_num
  unfold moveAndCollide
  simp only [hvx, add_zero, hstart, hoverlap, Bool.false_eq_true, if_false, if_true, hstep]
  rw [retreatLoop_eq_of_min _ fuel k (p.y + p.vy) hk hkf hmin]
  have hg : decide ((0 : ℚ) < 1) = true := by decide
  rw [hg]

/-- C8 amended: a player box falling with vy > 0 onto the one tile
floor at row R comes to rest with its bottom edge within one pixel
above flush: R * TILE <= y + h < R * TILE + 1 (exactly flush only when
the positions are whole pixels), with vy = 0 and onGround = true. -/
theorem moveAndCollide_floor_landing (R : ℤ) (p : Player) (fuel : ℕ)
    (hR0 : 0 ≤ R) (hR1 : R < 80)
    (hvx : p.vx = 0) (hvy : 0 < p.vy)
    (hstart : rectHits (floorWorld R) p.x p.y 26 30 = false)
    (hoverlap : rectHits (floorWorld R) p.x (p.y + p.vy) 26 30 = true)
    (hfuel : p.vy ≤ (fuel : ℚ)) :
    ∃ p' : Player, moveAndCollide (floorWorld R) fuel p = some p' ∧
      (R : ℚ) * 32 ≤ p'.y + 30 ∧ p'.y + 30 < (R : ℚ) * 32 + 1 ∧
      p'.vy = 0 ∧ p'.onGround = true := by
  have hT32 : ((TILE : ℤ) : ℚ) = 32 := by norm_num [TILE]
  have hchar := fun y => rectHits_floorWorld_iff R hR0 hR1 p.x y
  have hAB1 := (hchar (p.y + p.vy)).mp hoverlap
  have hbot : ⌊(p.y + 30 - 1) / (TILE : ℚ)⌋ < R := by
    by_contra hc
    push_neg at hc
    apply absurd hstart
    rw [Bool.not_eq_false, hchar p.y]
    refine ⟨?_, hc⟩
    calc ⌊p.y / (TILE : ℚ)⌋ ≤ ⌊(p.y + p.vy) / (TILE : ℚ)⌋ := by
          apply Int.floor_le_floor
          rw [div_le_div_iff_of_pos_right (by rw [hT32]; norm_num)]
          linarith
      _ ≤ R := hAB1.1
  have hPk0 : rectHits (floorWorld R) p.x (p.y + p.vy - (⌈p.vy⌉.toNat : ℚ)) 26 30 = false := by
    have hle : p.y + p.vy - (⌈p.vy⌉.toNat : ℚ) ≤ p.y := by
      have h1 : p.vy ≤ (⌈p.vy⌉ : ℚ) := Int.le_ceil p.vy
      have h2 : ((⌈p.vy⌉ : ℤ) : ℚ) ≤ ((⌈p.vy⌉.toNat : ℤ) : ℚ) := by
        exact_mod_cast Int.self_le_toNat _
      push_cast at h2
      linarith
    rw [← Bool.not_eq_true, hchar]
    rintro ⟨_, hB⟩
    have : ⌊(p.y + p.vy - (⌈p.vy⌉.toNat : ℚ) + 30 - 1) / (TILE : ℚ)⌋ ≤
        ⌊(p.y + 30 - 1) / (TILE : ℚ)⌋ := by
      apply Int.floor_le_floor
      rw [div_le_div_iff_of_pos_right (by rw [hT32]; norm_num)]
      linarith
    omega
  have hP : ∃ k : ℕ, rectHits (floorWorld R) p.x (p.y + p.vy - k) 26 30 = false :=
    ⟨⌈p.vy⌉.toNat, hPk0⟩
  have hkfuel : Nat.find hP ≤ fuel := by
    have h1 : Nat.find hP ≤ ⌈p.vy⌉.toNat := Nat.find_min' hP hPk0
    have h2 : ⌈p.vy⌉ ≤ (fuel : ℤ) := Int.ceil_le.mpr (by exact_mod_cast hfuel)
    omega
  have hk0 : Nat.find hP ≠ 0 := by
    intro h0
    have := Nat.find_spec hP
    rw [h0] at this
    simp only [Nat.cast_zero, sub_zero] at this
    rw [hoverlap] at this
    cases this
  obtain ⟨k', hk'⟩ : ∃ k', Nat.find hP = k' + 1 := ⟨Nat.find hP - 1, by omega⟩
  have hmin : ∀ j < Nat.find hP,
      rectHits (floorWorld R) p.x (p.y + p.vy - j) 26 30 = true := by
    intro j hj
    have := Nat.find_min hP hj
    rwa [Bool.not_eq_false] at this
  refine ⟨⟨p.x, p.y + p.vy - Nat.find hP, 0, 0, true⟩,
    moveAndCollide_vert _ fuel p (Nat.find hP) hvx hvy hstart hoverlap hkfuel
      (Nat.find_spec hP) hmin, ?_, ?_, rfl, rfl⟩
  · have hlast := (hchar _).mp (hmin k' (by omega))
    have hle := Int.le_floor.mp hlast.2
    rw [le_div_iff₀ (by rw [hT32]; norm_num)] at hle
    rw [hT32] at hle
    have hcast : ((k' : ℚ)) = ((Nat.find hP : ℚ)) - 1 := by
      rw [hk']
      push_cast
      ring
    dsimp only
    rw [mul_comm] at hle
    rw [hcast] at hle
    linarith
  · have hstop := Nat.find_spec hP
    rw [← Bool.not_eq_true, hchar] at hstop
    have hA : ⌊(p.y + p.vy - (Nat.find hP : ℚ)) / (TILE : ℚ)⌋ ≤ R := by
      have hlast := (hchar _).mp (hmin k' (by omega))
      calc ⌊(p.y + p.vy - (Nat.find hP : ℚ)) / (TILE : ℚ)⌋
          ≤ ⌊(p.y + p.vy - (k' : ℚ)) / (TILE : ℚ)⌋ := by
            apply Int.floor_le_floor
            rw [div_le_div_iff_of_pos_right (by rw [hT32]; norm_num)]
            have : (k' : ℚ) ≤ (Nat.find hP : ℚ) := by
              rw [hk']
              push_cast
              linarith
            linarith
        _ ≤ R := hlast.1
    have hB : ⌊(p.y + p.vy - (Nat.find hP : ℚ) + 30 - 1) / (TILE : ℚ)⌋ < R := by
      by_contra hc
      push_neg at hc
      exact hstop ⟨hA, hc⟩
    have hlt := Int.floor_lt.mp hB
    rw [div_lt_iff₀ (by rw [hT32]; norm_num)] at hlt
    rw [hT32] at hlt
    dsimp only
    linarith

/-- C8 counterexample: a box falling from the fractional approach
y = 34 with vy = 3/2 onto the floor at row 2 satisfies every premise
of the claim, yet lands with bottom edge 64.5, one half pixel short of
the exact flush 64 = R * TILE that the claim asserts. -/
theorem moveAndCollide_not_exact_landing :
    rectHits (floorWorld 2) 0 34 26 30 = false ∧
    rectHits (floorWorld 2) 0 (34 + 3 / 2) 26 30 = true ∧
    moveAndCollide (floorWorld 2) 2 ⟨0, 34, 0, 3 / 2, false⟩ =
      some ⟨0, 69 / 2, 0, 0, true⟩ ∧
    (69 / 2 : ℚ) + 30 ≠ (2 : ℚ) * 32 := by
  have hstart : rectHits (floorWorld 2) 0 34 26 30 = false := by
    rw [← Bool.not_eq_true, rectHits_floorWorld_iff 2 (by norm_num) (by norm_num)]
    rintro ⟨-, hB⟩
    norm_num [TILE] at hB
  have hoverlap : rectHits (floorWorld 2) 0 (34 + 3 / 2) 26 30 = true := by
    rw [rectHits_floorWorld_iff 2 (by norm_num) (by norm_num)]
    constructor <;> norm_num [TILE]
  have hland : rectHits (floorWorld 2) 0 (34 + 3 / 2 - ((1 : ℕ) : ℚ)) 26 30 = false := by
    rw [← Bool.not_eq_true, rectHits_floorWorld_iff 2 (by norm_num) (by norm_num)]
    rintro ⟨-, hB⟩
    norm_num [TILE] at hB
  have hmin : ∀ j < 1, rectHits (floorWorld 2) 0 (34 + 3 / 2 - ((j : ℕ) : ℚ)) 26 30 = true := by
    intro j hj
    interval_cases j
    simpa using hoverlap
  have hmv := moveAndCollide_vert (floorWorld 2) 2 ⟨0, 34, 0, 3 / 2, false⟩ 1
    rfl (by norm_num) hstart hoverlap (by norm_num) hland hmin
  have he : (34 : ℚ) + 3 / 2 - ((1 : ℕ) : ℚ) = 69 / 2 := by norm_num
  rw [he] at hmv
  exact ⟨hstart, hoverlap, hmv, by norm_num⟩

/-- C8 witness: the amended landing bounds instantiated at the
concrete fall of the counterexample scenario. -/
theorem moveAndCollide_floor_landing_witness :
    (0 : ℤ) ≤ 2 ∧ (2 : ℤ) < 80 ∧
    rectHits (floorWorld 2) 0 34 26 30 = false ∧
    rectHits (floorWorld 2) 0 (34 + 3 / 2) 26 30 = true ∧
    (3 / 2 : ℚ) ≤ ((2 : ℕ) : ℚ) ∧
    (∃ p' : Player, moveAndCollide (floorWorld 2) 2 ⟨0, 34, 0, 3 / 2, false⟩ = some p' ∧
      ((2 : ℤ) : ℚ) * 32 ≤ p'.y + 30 ∧ p'.y + 30 < ((2 : ℤ) : ℚ) * 32 + 1 ∧
      p'.vy = 0 ∧ p'.onGround = true) := by
  have hstart : rectHits (floorWorld 2) 0 34 26 30 = false := by
    rw [← Bool.not_eq_true, rectHits_floorWorld_iff 2 (by norm_num) (by norm_num)]
    rintro ⟨-, hB⟩
    norm_num [TILE] at hB
  have hoverlap : rectHits (floorWorld 2) 0 (34 + 3 / 2) 26 30 = true := by
    rw [rectHits_floorWorld_iff 2 (by norm_num) (by norm_num)]
    constructor <;> norm_num [TILE]
  exact ⟨by norm_num, by norm_num, hstart, hoverlap, by norm_num,
    moveAndCollide_floor_landing 2 ⟨0, 34, 0, 3 / 2, false⟩ 2
      (by norm_num) (by norm_num) rfl (by norm_num) hstart hoverlap (by norm_num)⟩

/-- Lazy chunk creation does not change any tile value: a chunk stored
by a miss holds exactly the grid that a later read would regenerate. -/
theorem getBlockVal_getChunk_snd (s : ChunkMap) (c tx ty : ℤ) :
    getBlockVal (getChunk s c).2 tx ty = getBlockVal s tx ty := by
  unfold getChunk
  cases h : lookupChunk s c with
  | some g => rfl
  | none =>
    unfold getBlockVal getBlock
    by_cases hr : ty < 0 ∨ WORLD_H ≤ ty
    · rw [if_pos hr, if_pos hr]
    · rw [if_neg hr, if_neg hr]
      dsimp only
      unfold getChunk
      rw [lookupChunk_cons]
      dsimp only
      by_cases hc : c = floorDiv tx CHUNK_W
      · rw [if_pos hc, ← hc, h]
      · rw [if_neg hc]
        cases lookupChunk s (floorDiv tx CHUNK_W) <;> rfl

/-- The state threaded out of getBlock preserves every tile value. -/
theorem getBlockVal_getBlock_snd (s : ChunkMap) (tx0 ty0 tx ty : ℤ) :
    getBlockVal (getBlock s tx0 ty0).2 tx ty = getBlockVal s tx ty := by
  unfold getBlock
  by_cases hr : ty0 < 0 ∨ WORLD_H ≤ ty0
  · rw [if_pos hr]
  · rw [if_neg hr]
    exact getBlockVal_getChunk_snd s _ tx ty

/-- C9: a place request whose target rectangle overlaps the player is
rejected, leaving the target tile value and the whole hotbar
unchanged; a break request on an Air tile changes no tile value and no
hotbar slot. -/
theorem interaction_guards (g : Game) (tx ty : ℤ) :
    (overlapsPlayer g tx ty →
      getBlockVal (placeAt g tx ty).chunks tx ty = getBlockVal g.chunks tx ty ∧
      (placeAt g tx ty).hotbar = g.hotbar) ∧
    (getBlockVal g.chunks tx ty = 0 →
      (∀ tx' ty' : ℤ,
        getBlockVal (breakAt g tx ty).chunks tx' ty' = getBlockVal g.chunks tx' ty') ∧
      (breakAt g tx ty).hotbar = g.hotbar) := by
  constructor
  · intro hov
    unfold placeAt
    by_cases hreach : withinReach g tx ty
    · rw [if_neg (not_not_intro hreach)]
      split
      · exact ⟨rfl, rfl⟩
      · split
        · exact ⟨rfl, rfl⟩
        · dsimp only
          split
          all_goals exact ⟨getBlockVal_getBlock_snd g.chunks tx ty tx ty, rfl⟩
    · rw [if_pos hreach]
      exact ⟨rfl, rfl⟩
  · intro hair
    unfold breakAt
    by_cases hreach : withinReach g tx ty
    · rw [if_neg (not_not_intro hreach)]
      dsimp only
      have hb : ¬ ((getBlock g.chunks tx ty).1 ≠ 0) := by
        rw [not_not]
        exact hair
      rw [if_neg hb]
      exact ⟨fun tx' ty' => getBlockVal_getBlock_snd g.chunks tx ty tx' ty', rfl⟩
    · rw [if_pos hreach]
      exact ⟨fun tx' ty' => rfl, rfl⟩

/-- A small concrete game state: empty chunk map, the initial hotbar
of the stable variant, the spawn position. -/
def demoGame : Game :=
  { chunks := [],
    hotbar := [⟨2, 40⟩, ⟨3, 0⟩, ⟨4, 0⟩, ⟨5, 0⟩, ⟨1, 0⟩, ⟨7, 0⟩],
    selectedSlot := 0,
    px := 64,
    py := 320 }

/-- C9 witness: tile (2, 10) overlaps the spawned player box, so the
place request is rejected; tile (5, -1) reads as Air, so the break
request is a no-op. -/
theorem interaction_guards_witness :
    overlapsPlayer demoGame 2 10 ∧
    (getBlockVal (placeAt demoGame 2 10).chunks 2 10 = getBlockVal demoGame.chunks 2 10 ∧
      (placeAt demoGame 2 10).hotbar = demoGame.hotbar) ∧
    getBlockVal demoGame.chunks 5 (-1) = 0 ∧
    ((∀ tx' ty' : ℤ,
        getBlockVal (breakAt demoGame 5 (-1)).chunks tx' ty' =
          getBlockVal demoGame.chunks tx' ty') ∧
      (breakAt demoGame 5 (-1)).hotbar = demoGame.hotbar) := by
  have hov : overlapsPlayer demoGame 2 10 := by
    unfold overlapsPlayer demoGame
    norm_num
  have hair : getBlockVal demoGame.chunks 5 (-1) = 0 := rfl
  exact ⟨hov, (interaction_guards demoGame 2 10).1 hov, hair,
    (interaction_guards demoGame 5 (-1)).2 hair⟩

set_option maxHeartbeats 1000000 in
/-- C10: updateSurvival preserves the vitals bounds for every
nonnegative dt and every outcome of the two random draws: health and
hunger stay within [0, max]; respawn restores both maxima. -/
theorem updateSurvival_bounds (st : SState) (dt : ℚ) (r1 r2 : Bool)
    (hdt : 0 ≤ dt)
    (hh0 : 0 ≤ st.health) (hh1 : st.health ≤ 20)
    (hg0 : 0 ≤ st.hunger) (hg1 : st.hunger ≤ 20) :
    0 ≤ (updateSurvival dt r1 r2 st).health ∧ (updateSurvival dt r1 r2 st).health ≤ 20 ∧
    0 ≤ (updateSurvival dt r1 r2 st).hunger ∧ (updateSurvival dt r1 r2 st).hunger ≤ 20 := by
  unfold updateSurvival respawn
  dsimp only
  split_ifs <;>
    refine ⟨?_, ?_, ?_, ?_⟩ <;>
    (try dsimp only) <;>
    (try norm_num) <;>
    linarith

/-- A concrete survival state at full vitals, standing at spawn. -/
def demoSurv : SState := ⟨20, 20, 0, 64, 320, 0, 0⟩

/-- C10 witness: the bounds hold across one survival tick of one
second with both random draws failing, from full vitals. -/
theorem updateSurvival_bounds_witness :
    (0 : ℚ) ≤ 1 ∧
    (0 ≤ demoSurv.health ∧ demoSurv.health ≤ 20 ∧
      0 ≤ demoSurv.hunger ∧ demoSurv.hunger ≤ 20) ∧
    (0 ≤ (updateSurvival 1 false false demoSurv).health ∧
      (updateSurvival 1 false false demoSurv).health ≤ 20 ∧
      0 ≤ (updateSurvival 1 false false demoSurv).hunger ∧
      (updateSurvival 1 false false demoSurv).hunger ≤ 20) := by
  refine ⟨by norm_num, ⟨?_, ?_, ?_, ?_⟩, ?_⟩
  · norm_num [demoSurv]
  · norm_num [demoSurv]
  · norm_num [demoSurv]
  · norm_num [demoSurv]
  · exact updateSurvival_bounds demoSurv 1 false false (by norm_num)
      (by norm_num [demoSurv]) (by norm_num [demoSurv])
      (by norm_num [demoSurv]) (by norm_num [demoSurv])
